import Mathlib

/-!
Verification development for the adaptive cubic Bezier curve fitter of
extern/curve_fit_nd/intern/curve_fit_cubic.c.

Machine doubles are modelled as exact rationals.  The low-level vector
helpers live in curve_fit_inline.h, which is not among the sources; the
specification treats them as an assumed external collaborator (VecOps) and
states their contracts, so they are modelled from the spec below.  The
square root used by the length helper is threaded through as an explicit
function parameter so that every definition stays executable.
-/

namespace CurveFit

/-- An n-dimensional point: a list of coordinates, dims implicit in the length. -/
abbrev Pt := List ℚ

/-- Modelled from the spec: dot product of the assumed VecOps collaborator
(curve_fit_inline.h is not among the sources). -/
def dot_vnvn (a b : Pt) : ℚ := (List.zipWith (fun x y => x * y) a b).sum

/-- Modelled from the spec: squared distance between two vectors (VecOps). -/
def len_squared_vnvn (a b : Pt) : ℚ := (List.zipWith (fun x y => (x - y) ^ 2) a b).sum

/-- Modelled from the spec: squared length of a vector (VecOps). -/
def len_squared_vn (a : Pt) : ℚ := (a.map (fun x => x ^ 2)).sum

/-- Modelled from the spec: Euclidean distance (VecOps); the machine square
root is the explicit parameter sq. -/
def len_vnvn (sq : ℚ → ℚ) (a b : Pt) : ℚ := sq (len_squared_vnvn a b)

/-- Modelled from the spec: normalize-from-difference, x = normalize(a - b) (VecOps). -/
def normalize_vn_vnvn (sq : ℚ → ℚ) (a b : Pt) : Pt :=
  let d := List.zipWith (fun x y => x - y) a b
  d.map (fun x => x / sq (len_squared_vn d))

/-- Modelled from the spec: fused x = a - b * sc (VecOps). -/
def msub_vn_vnvn_fl (a b : Pt) (sc : ℚ) : Pt := List.zipWith (fun x y => x - y * sc) a b

/-- Modelled from the spec: fused x = a + b * sc (VecOps). -/
def madd_vn_vnvn_fl (a b : Pt) (sc : ℚ) : Pt := List.zipWith (fun x y => x + y * sc) a b

/-- Modelled from the spec: dst = src * sc (VecOps). -/
def mul_vnvn_fl (src : Pt) (sc : ℚ) : Pt := src.map (fun x => x * sc)

/-- Modelled from the spec: mirror of other about center, 2 * center - other
(the flip used when finalizing the first and last knot). -/
def flip_vn_vnvn (center other : Pt) : Pt :=
  List.zipWith (fun c o => 2 * c - o) center other

/-- Modelled from the spec: the equality test of the VecOps collaborator;
the epsilon of the missing inline header is taken as zero, exact equality. -/
def equals_vnvn (a b : Pt) : Bool := decide (a = b)

/-- Modelled from the spec: the is_almost_zero test of the missing inline
header; the epsilon value is not in the sources, a fixed small one is used. -/
def is_almost_zero (v : ℚ) : Bool := decide (|v| < 1 / 100000000)

/-- The Cubic value type of the source: four control points and the number
of original sample intervals the segment covers. -/
structure Cubic where
  p0 : Pt
  p1 : Pt
  p2 : Pt
  p3 : Pt
  orig_span : ℕ

/-- De Casteljau evaluation of the cubic at parameter t (cubic_evaluate). -/
def cubic_evaluate (c : Cubic) (t : ℚ) : Pt :=
  let s := 1 - t
  let p01 := List.zipWith (fun a b => a * s + b * t) c.p0 c.p1
  let p12 := List.zipWith (fun a b => a * s + b * t) c.p1 c.p2
  let p23 := List.zipWith (fun a b => a * s + b * t) c.p2 c.p3
  List.zipWith (fun x y => x * s + y * t)
    (List.zipWith (fun a b => a * s + b * t) p01 p12)
    (List.zipWith (fun a b => a * s + b * t) p12 p23)

/-- Direct polynomial position evaluation (cubic_calc_point). -/
def cubic_calc_point (c : Cubic) (t : ℚ) : Pt :=
  let s := 1 - t
  List.zipWith (fun x p3j => x + t * t * t * p3j)
    (List.zipWith3 (fun p0j p1j p2j => p0j * s * s * s + 3 * t * s * (s * p1j + t * p2j))
      c.p0 c.p1 c.p2)
    c.p3

/-- The velocity evaluator exactly as the source computes it
(cubic_calc_speed); note the middle term uses p2 - p0. -/
def cubic_calc_speed (c : Cubic) (t : ℚ) : Pt :=
  let s := 1 - t
  List.zipWith (fun pr p3j => 3 * (pr.1 + (p3j - pr.2) * t * t))
    (List.zipWith3 (fun p0j p1j p2j => ((p1j - p0j) * s * s + 2 * (p2j - p0j) * s * t, p2j))
      c.p0 c.p1 c.p2)
    c.p3

/-- The acceleration evaluator (cubic_calc_acceleration). -/
def cubic_calc_acceleration (c : Cubic) (t : ℚ) : Pt :=
  let s := 1 - t
  List.zipWith (fun pr p3j => 6 * (pr.1 * s + (p3j - 2 * pr.2.2 + pr.2.1) * t))
    (List.zipWith3 (fun p0j p1j p2j => (p2j - 2 * p1j + p0j, (p1j, p2j)))
      c.p0 c.p1 c.p2)
    c.p3

/-- One step of the worst-deviation scan of cubic_calc_error: the source
updates the running maximum when err_sq is greater or equal. -/
def cubic_calc_error_step (c : Cubic) (pts : List Pt) (u : List ℚ) (st : ℚ × ℕ) (i : ℕ) : ℚ × ℕ :=
  let err_sq := len_squared_vnvn (pts.getD i []) (cubic_evaluate c (u.getD i 0))
  if st.1 ≤ err_sq then (err_sq, i) else st

/-- Worst squared deviation of the interior samples from the candidate
curve, with its index (cubic_calc_error); the loop runs i = 1 .. n - 2. -/
def cubic_calc_error (c : Cubic) (pts : List Pt) (u : List ℚ) : ℚ × ℕ :=
  (List.range' 1 (pts.length - 2)).foldl (cubic_calc_error_step c pts u) (0, 0)

/-- Bezier multiplier B1 (source function B1). -/
def B1 (u : ℚ) : ℚ := 3 * u * (1 - u) * (1 - u)

/-- Bezier multiplier B2 (source function B2). -/
def B2 (u : ℚ) : ℚ := 3 * u * u * (1 - u)

/-- Bezier multiplier sum B0 + B1 (source function B0plusB1). -/
def B0plusB1 (u : ℚ) : ℚ := (1 - u) * (1 - u) * (1 + 2 * u)

/-- Bezier multiplier sum B2 + B3 (source function B2plusB3). -/
def B2plusB3 (u : ℚ) : ℚ := u * u * (3 - 2 * u)

/-- Weighted centroid of a run; each weight is the sum of the two incident
chord lengths, with the run treated as a cycle for the weights only
(points_calc_center_weighted). -/
def points_calc_center_weighted (sq : ℚ → ℚ) (pts : List Pt) : Pt :=
  let n := pts.length
  let w : ℕ → ℚ := fun k =>
    len_vnvn sq (pts.getD ((k + n - 1) % n) []) (pts.getD k []) +
    len_vnvn sq (pts.getD k []) (pts.getD ((k + 1) % n) [])
  let w_tot := ((List.range n).map w).sum
  let acc := (List.range n).foldl
    (fun acc k => madd_vn_vnvn_fl acc (pts.getD k []) (w k))
    ((pts.headD []).map (fun _ => (0 : ℚ)))
  if w_tot ≠ 0 then acc.map (fun x => x * (1 / w_tot)) else acc

/-- The residual vector tmp of sample i in the least-squares loop of
cubic_from_points, bracketed exactly as in the source:
(pt - p0 * b0_plus_b1) + p3 * b2_plus_b3. -/
def cubic_from_points_tmp (pts : List Pt) (u_prime : List ℚ) (i : ℕ) : Pt :=
  let ui := u_prime.getD i 0
  List.zipWith (fun x y => x + y)
    (List.zipWith (fun ptj p0j => ptj - p0j * B0plusB1 ui) (pts.getD i []) (pts.headD []))
    ((pts.getLastD []).map (fun p3j => p3j * B2plusB3 ui))

/-- One iteration of the normal-equation accumulation loop of
cubic_from_points: adds the contributions of sample i to
(c00, c01, c11, x0, x1). -/
def cubic_from_points_step (pts : List Pt) (u_prime : List ℚ) (tan_l tan_r : Pt)
    (acc : ℚ × ℚ × ℚ × ℚ × ℚ) (i : ℕ) : ℚ × ℚ × ℚ × ℚ × ℚ :=
  let ui := u_prime.getD i 0
  let a0 := mul_vnvn_fl tan_l (B1 ui)
  let a1 := mul_vnvn_fl tan_r (B2 ui)
  let tmp := cubic_from_points_tmp pts u_prime i
  (acc.1 + dot_vnvn a0 a0, acc.2.1 + dot_vnvn a0 a1, acc.2.2.1 + dot_vnvn a1 a1,
   acc.2.2.2.1 + dot_vnvn a0 tmp, acc.2.2.2.2 + dot_vnvn a1 tmp)

/-- The accumulated (c00, c01, c11, x0, x1) of the least-squares loop of
cubic_from_points. -/
def cubic_from_points_acc (pts : List Pt) (u_prime : List ℚ) (tan_l tan_r : Pt) :
    ℚ × ℚ × ℚ × ℚ × ℚ :=
  (List.range pts.length).foldl (cubic_from_points_step pts u_prime tan_l tan_r) (0, 0, 0, 0, 0)

/-- The two tangent magnitudes produced by Cramer solve of the normal
equations in cubic_from_points, including the near-zero determinant nudge.
In machine arithmetic a division by zero here yields a non-finite value
that the sign check below catches; rational division by zero yields 0,
which the same check lets through as the harmless pair (0, 0). -/
def cubic_from_points_alphas (pts : List Pt) (u_prime : List ℚ) (tan_l tan_r : Pt) : ℚ × ℚ :=
  let acc := cubic_from_points_acc pts u_prime tan_l tan_r
  let c00 := acc.1
  let c01 := acc.2.1
  let c11 := acc.2.2.1
  let x0 := acc.2.2.2.1
  let x1 := acc.2.2.2.2
  let det_C0_C1 := c00 * c11 - c01 * c01
  let det_C_0X := x1 * c00 - x0 * c01
  let det_X_C1 := x0 * c11 - x1 * c01
  let det := if is_almost_zero det_C0_C1 then c00 * c11 * (1 / 100000000000) else det_C0_C1
  (det_X_C1 / det, det_C_0X / det)

/-- The alphas actually used for the handles: the source replaces both by
the heuristic distance / 3 whenever the sign test written as
not (alpha at least 0) fires for either of them. -/
def cubic_from_points_alphas_checked (sq : ℚ → ℚ) (pts : List Pt) (u_prime : List ℚ)
    (tan_l tan_r : Pt) : ℚ × ℚ :=
  let raw := cubic_from_points_alphas pts u_prime tan_l tan_r
  if ¬(raw.1 ≥ 0) ∨ ¬(raw.2 ≥ 0) then
    let d := len_vnvn sq (pts.headD []) (pts.getLastD []) / 3
    (d, d)
  else raw

/-- Least-squares candidate cubic for a run (cubic_from_points), including
the tangent-envelope clamping against the weighted centroid. -/
def cubic_from_points (sq : ℚ → ℚ) (pts : List Pt) (u_prime : List ℚ) (tan_l tan_r : Pt) : Cubic :=
  let p0 := pts.headD []
  let p3 := pts.getLastD []
  let al := cubic_from_points_alphas_checked sq pts u_prime tan_l tan_r
  let p1 := msub_vn_vnvn_fl p0 tan_l al.1
  let p2 := madd_vn_vnvn_fl p3 tan_r al.2
  let center := points_calc_center_weighted sq pts
  let dist_sq_max := pts.foldl
    (fun m pt => max m ((List.zipWith (fun ptj cj => ((ptj - cj) * 3) ^ 2) pt center).sum)) 0
  let p1_dist_sq := len_squared_vnvn center p1
  let p2_dist_sq := len_squared_vnvn center p2
  let h := if dist_sq_max < p1_dist_sq ∨ dist_sq_max < p2_dist_sq then
      let d := len_vnvn sq p0 p3 / 3
      (List.zipWith (fun a b => a - b * d) p0 tan_l,
       List.zipWith (fun a b => a + b * d) p3 tan_r)
    else (p1, p2)
  let q1_dist_sq := len_squared_vnvn center h.1
  let q2_dist_sq := len_squared_vnvn center h.2
  let q1 := if dist_sq_max < q1_dist_sq then
      h.1.zipWith (fun pj cj => (pj - cj) * (sq dist_sq_max / sq q1_dist_sq) + cj) center
    else h.1
  let q2 := if dist_sq_max < q2_dist_sq then
      h.2.zipWith (fun pj cj => (pj - cj) * (sq dist_sq_max / sq q2_dist_sq) + cj) center
    else h.2
  { p0 := p0, p1 := q1, p2 := q2, p3 := p3, orig_span := pts.length - 1 }

/-- Per-run chord length cache (points_calc_coord_length_cache):
entry 0 is 0, entry i is the distance from point i to point i - 1. -/
def points_calc_coord_length_cache (sq : ℚ → ℚ) (pts : List Pt) : List ℚ :=
  0 :: List.zipWith (fun cur prev => len_vnvn sq cur prev) pts.tail pts

/-- Chord-length parameterization (points_calc_coord_length): cumulative
sums of the cached chord lengths, normalized by the total. -/
def points_calc_coord_length (cache : List ℚ) (n : ℕ) : List ℚ :=
  let cums := (cache.tail.take (n - 1)).scanl (fun a b => a + b) 0
  let w := cums.getLastD 0
  cums.map (fun x => x / w)

/-- One Newton-Raphson step on the distance functional (cubic_find_root).
In machine arithmetic a zero denominator makes the result non-finite; the
caller checks isfinite, which the none case models. -/
def cubic_find_root (c : Cubic) (p : Pt) (u : ℚ) : Option ℚ :=
  let q0 := cubic_calc_point c u
  let q1 := cubic_calc_speed c u
  let q2 := cubic_calc_acceleration c u
  let q0p := List.zipWith (fun a b => a - b) q0 p
  let denom := len_squared_vn q1 + dot_vnvn q0p q2
  if denom = 0 then none else some (u - dot_vnvn q0p q1 / denom)

/-- Newton-Raphson reparameterization (cubic_reparameterize): one root per
sample, reject on a non-finite root, sort ascending (the qsort of the
source), then reject when the sorted values leave the unit interval. -/
def cubic_reparameterize (c : Cubic) (pts : List Pt) (u : List ℚ) : Option (List ℚ) :=
  match (List.range pts.length).mapM (fun i => cubic_find_root c (pts.getD i []) (u.getD i 0)) with
  | none => none
  | some roots =>
    let sorted := List.insertionSort (fun a b => a ≤ b) roots
    if sorted.headD 0 < 0 ∨ 1 < sorted.getLastD 0 then none else some sorted

/-- The bounded refit loop of fit_cubic_to_points (up to 4 iterations):
reparameterize, refit, accept when under the threshold, otherwise carry the
new parameterization into the next round (the SWAP of the source).  Returns
the accepted cubic (if any) together with the split index of the last error
measurement. -/
def fitIter (sq : ℚ → ℚ) (pts : List Pt) (tan_l tan_r : Pt) (err_sq : ℚ) :
    ℕ → Cubic → List ℚ → ℕ → Option Cubic × ℕ
  | 0, _, _, split => (none, split)
  | fuel + 1, cubic, u, split =>
    match cubic_reparameterize cubic pts u with
    | none => (none, split)
    | some u_prime =>
      let cubic2 := cubic_from_points sq pts u_prime tan_l tan_r
      let es := cubic_calc_error cubic2 pts u_prime
      if es.1 < err_sq then (some cubic2, es.2)
      else fitIter sq pts tan_l tan_r err_sq fuel cubic2 u_prime es.2

/-- The interior tangent computed at a split: the normalized direction from
the point before the split to the point after it, with the source's
degenerate guard (when those two coincide, the first is advanced one). -/
def fit_split_tangent (sq : ℚ → ℚ) (pts : List Pt) (split : ℕ) : Pt :=
  let pt_b := pts.getD (split + 1) []
  let pt_a := if equals_vnvn (pts.getD (split - 1) []) pt_b then pts.getD split []
              else pts.getD (split - 1) []
  normalize_vn_vnvn sq pt_a pt_b

/-- The recursive fitter (fit_cubic_to_points), with an explicit fuel that
bounds the recursion depth.  The source recursion terminates because the
split index is interior (see cubic_calc_error_index_bounds below), so every
recursive call strictly shrinks the run; fuel equal to the run length is
always enough, and the wrapper fit_cubic_to_points fixes it so.  Runs of
fewer than two points are outside the driver's contract. -/
def fitFuel (sq : ℚ → ℚ) : ℕ → List Pt → List ℚ → Pt → Pt → ℚ → List Cubic
  | 0, _, _, _, _, _ => []
  | fuel + 1, pts, cache, tan_l, tan_r, err =>
    let err_sq := err * err
    if pts.length < 3 then
      let p0 := pts.headD []
      let p3 := pts.getD 1 []
      let dist := len_vnvn sq p0 p3 / 3
      [⟨p0, msub_vn_vnvn_fl p0 tan_l dist, madd_vn_vnvn_fl p3 tan_r dist, p3, 1⟩]
    else
      let u := points_calc_coord_length cache pts.length
      let cubic0 := cubic_from_points sq pts u tan_l tan_r
      let es0 := cubic_calc_error cubic0 pts u
      if es0.1 < err_sq then [cubic0]
      else
        match fitIter sq pts tan_l tan_r err_sq 4 cubic0 u es0.2 with
        | (some cubic2, _) => [cubic2]
        | (none, split) =>
          let tan_center := fit_split_tangent sq pts split
          fitFuel sq fuel (pts.take (split + 1)) (cache.take (split + 1)) tan_l tan_center err ++
          fitFuel sq fuel (pts.drop split) (cache.drop split) tan_center tan_r err

/-- The per-run fitter of the source (fit_cubic_to_points); emitted segments
are listed in geometric order (the source prepends to a linked list and
un-reverses while flattening). -/
def fit_cubic_to_points (sq : ℚ → ℚ) (pts : List Pt) (cache : List ℚ)
    (tan_l tan_r : Pt) (err : ℚ) : List Cubic :=
  fitFuel sq pts.length pts cache tan_l tan_r err

/-- One run of the driver loop, for the corner pair (a, b): endpoint
tangents from the first and last chord, the refreshed length cache, then the
recursive fitter; a one-point run emits a degenerate all-equal cubic only in
the whole-input-is-one-point case, whose orig_span the source never writes
(cubic_init leaves it as allocated) - the parameter junk stands for that
uninitialized value. -/
def run_fit (sq : ℚ → ℚ) (junk : ℕ) (pts : List Pt) (err : ℚ) (a b : ℕ) : List Cubic :=
  let len := b - a + 1
  if 1 < len then
    let run := (pts.drop a).take len
    let tan_l := normalize_vn_vnvn sq (run.headD []) (run.getD 1 [])
    let tan_r := normalize_vn_vnvn sq (run.getD (len - 2) []) (run.getD (len - 1) [])
    let cache := points_calc_coord_length_cache sq run
    fit_cubic_to_points sq run cache tan_l tan_r err
  else if pts.length = 1 then
    let pt := pts.headD []
    [⟨pt, pt, pt, pt, junk⟩]
  else []

/-- The corner-pair walk of curve_fit_cubic_to_points_db: accumulates the
emitted segments and, after each run, the running segment count (the value
the source stores into the optional corner index array). -/
def driver_loop (sq : ℚ → ℚ) (junk : ℕ) (pts : List Pt) (err : ℚ) :
    List (ℕ × ℕ) → List Cubic × List ℕ → List Cubic × List ℕ
  | [], st => st
  | pr :: rest, st =>
    let clist2 := st.1 ++ run_fit sq junk pts err pr.1 pr.2
    driver_loop sq junk pts err rest (clist2, st.2 ++ [clist2.length])

/-- Flattening of the segment list into knot triples
(cubic_list_as_array); the source fills the array backwards from the
reverse-order linked list, which in geometric order gives: first knot
(mirrored left handle, anchor, right handle of the first cubic), one triple
per interior knot from each adjacent pair, and the last knot with the
mirrored right handle. -/
def cubic_list_as_array (cubics : List Cubic) : List Pt :=
  match cubics with
  | [] => []
  | c0 :: _ =>
    let lastc := cubics.getLastD c0
    ([flip_vn_vnvn c0.p0 c0.p1, c0.p0, c0.p1] ++
      (cubics.zip cubics.tail).flatMap (fun pr => [pr.1.p2, pr.1.p3, pr.2.p1])) ++
    [lastc.p2, lastc.p3, flip_vn_vnvn lastc.p3 lastc.p2]

/-- The per-knot original sample indices (the orig index part of
cubic_list_as_array): the source walks the list from the last knot backwards
subtracting each orig_span from index_last; subtraction is modelled on Nat,
which agrees with the unsigned source arithmetic whenever the spans
telescope below index_last (the driver invariant), and also reproduces the
special-cased first entry, which the source forces to 0 when index_last is 0. -/
def orig_index_array (cubics : List Cubic) (index_last : ℕ) : List ℕ :=
  (List.range (cubics.length + 1)).map
    (fun j => index_last - ((cubics.map Cubic.orig_span).drop j).sum)

/-- The outputs of the double-precision entry point. -/
structure FitResult where
  status : ℤ
  cubic_array : List Pt
  cubic_array_len : ℕ
  orig_index : Option (List ℕ)
  corner_index : Option (List ℕ)

/-- The double-precision entry point (curve_fit_cubic_to_points_db):
defaults the corners to the two ends when absent, walks the corner pairs,
flattens, and only returns the corner index array when the caller both
requested it and supplied corners (the corners-not-equal-to-corners_buf
guard of the source). -/
def curve_fit_cubic_to_points_db (sq : ℚ → ℚ) (junk : ℕ) (pts : List Pt) (err : ℚ)
    (corners : Option (List ℕ)) (want_orig want_corner : Bool) : FitResult :=
  let cs := corners.getD [0, pts.length - 1]
  let st := driver_loop sq junk pts err (cs.zip cs.tail) ([], [])
  let clist := st.1
  { status := 0
    cubic_array := cubic_list_as_array clist
    cubic_array_len := clist.length + 1
    orig_index := if want_orig then some (orig_index_array clist (cs.getLastD 0)) else none
    corner_index := if want_corner && corners.isSome then some (cs.headD 0 :: st.2) else none }

/-- The single-precision entry point (curve_fit_cubic_to_points_fl): widen
every input coordinate and the threshold, dispatch to the double entry
point, and narrow the cubic array on the way out when the status is 0 (the
status is 0 always); the integer outputs are passed through unchanged. -/
def curve_fit_cubic_to_points_fl (sq : ℚ → ℚ) (junk : ℕ) (widen narrow : ℚ → ℚ)
    (pts : List Pt) (err : ℚ) (corners : Option (List ℕ)) (want_orig want_corner : Bool) :
    FitResult :=
  let pts_db := pts.map (fun p => p.map widen)
  let r := curve_fit_cubic_to_points_db sq junk pts_db (widen err) corners want_orig want_corner
  let arr := if r.status = 0 then r.cubic_array.map (fun v => v.map narrow) else []
  { status := r.status
    cubic_array := arr
    cubic_array_len := r.cubic_array_len
    orig_index := r.orig_index
    corner_index := r.corner_index }

/-- Following the spec words for the float convenience entry: widen to
double, dispatch to the double entry point, narrow on the way out, with no
semantic differences; written independently of the source wrapper for
comparison. -/
def curve_fit_cubic_to_points_fl_spec (sq : ℚ → ℚ) (junk : ℕ) (widen narrow : ℚ → ℚ)
    (pts : List Pt) (err : ℚ) (corners : Option (List ℕ)) (want_orig want_corner : Bool) :
    FitResult :=
  let r := curve_fit_cubic_to_points_db sq junk (pts.map (fun p => p.map widen)) (widen err)
    corners want_orig want_corner
  { r with cubic_array := r.cubic_array.map (fun v => v.map narrow) }

/-- A concrete square root table used by the witnesses below; it is exact on
the squared lengths that actually occur in their inputs. -/
def sqrt_test : ℚ → ℚ := fun q =>
  if q = 1 then 1 else if q = 4 then 2 else if q = 9 then 3 else 0

/-! Helper lemmas. -/

theorem mem_zipWith_sq_nonneg :
    ∀ (a b : List ℚ) (x : ℚ), x ∈ List.zipWith (fun x y => (x - y) ^ 2) a b → 0 ≤ x := by
  intro a
  induction a with
  | nil => intro b x hx; simp at hx
  | cons ha ta ih =>
    intro b x hx
    cases b with
    | nil => simp at hx
    | cons hb tb =>
      rcases List.mem_cons.1 hx with h | h
      · subst h; positivity
      · exact ih tb x h

theorem len_squared_vnvn_nonneg (a b : Pt) : 0 ≤ len_squared_vnvn a b :=
  List.sum_nonneg (fun x hx => mem_zipWith_sq_nonneg a b x hx)

theorem cubic_calc_error_foldl_fst_nonneg (c : Cubic) (pts : List Pt) (u : List ℚ) :
    ∀ (l : List ℕ) (st : ℚ × ℕ), 0 ≤ st.1 →
      0 ≤ (l.foldl (cubic_calc_error_step c pts u) st).1 := by
  intro l
  induction l with
  | nil => intro st h; exact h
  | cons i t ih =>
    intro st h
    rw [List.foldl_cons]
    apply ih
    simp only [cubic_calc_error_step]
    by_cases h2 : st.1 ≤ len_squared_vnvn (pts.getD i []) (cubic_evaluate c (u.getD i 0))
    · rw [if_pos h2]; exact le_trans h h2
    · rw [if_neg h2]; exact h

theorem cubic_calc_error_fst_nonneg (c : Cubic) (pts : List Pt) (u : List ℚ) :
    0 ≤ (cubic_calc_error c pts u).1 :=
  cubic_calc_error_foldl_fst_nonneg c pts u _ (0, 0) le_rfl

theorem cubic_calc_error_foldl_snd_mem (c : Cubic) (pts : List Pt) (u : List ℚ) (lo hi : ℕ) :
    ∀ (l : List ℕ) (st : ℚ × ℕ), lo ≤ st.2 → st.2 ≤ hi → (∀ i ∈ l, lo ≤ i ∧ i ≤ hi) →
      lo ≤ (l.foldl (cubic_calc_error_step c pts u) st).2 ∧
      (l.foldl (cubic_calc_error_step c pts u) st).2 ≤ hi := by
  intro l
  induction l with
  | nil => intro st h1 h2 _; exact ⟨h1, h2⟩
  | cons i t ih =>
    intro st h1 h2 hl
    rw [List.foldl_cons]
    have hmi := hl i (List.mem_cons_self i t)
    have hrest : ∀ j ∈ t, lo ≤ j ∧ j ≤ hi := fun j hj => hl j (List.mem_cons_of_mem i hj)
    simp only [cubic_calc_error_step]
    by_cases h3 : st.1 ≤ len_squared_vnvn (pts.getD i []) (cubic_evaluate c (u.getD i 0))
    · rw [if_pos h3]; exact ih _ hmi.1 hmi.2 hrest
    · rw [if_neg h3]; exact ih _ h1 h2 hrest

theorem cubic_calc_error_index_bounds (c : Cubic) (pts : List Pt) (u : List ℚ)
    (h : 3 ≤ pts.length) :
    1 ≤ (cubic_calc_error c pts u).2 ∧ (cubic_calc_error c pts u).2 ≤ pts.length - 2 := by
  unfold cubic_calc_error
  obtain ⟨k, hk⟩ : ∃ k, pts.length - 2 = k + 1 := ⟨pts.length - 3, by omega⟩
  rw [hk, List.range'_succ, List.foldl_cons]
  have h1 : cubic_calc_error_step c pts u (0, 0) 1 =
      (len_squared_vnvn (pts.getD 1 []) (cubic_evaluate c (u.getD 1 0)), 1) := by
    simp only [cubic_calc_error_step]
    rw [if_pos]
    exact len_squared_vnvn_nonneg _ _
  rw [h1]
  apply cubic_calc_error_foldl_snd_mem c pts u 1 (k + 1)
  · exact le_rfl
  · omega
  · intro i hi
    rw [List.mem_range'_1] at hi
    omega

theorem cubic_from_points_orig_span (sq : ℚ → ℚ) (pts : List Pt) (u : List ℚ) (tl tr : Pt) :
    (cubic_from_points sq pts u tl tr).orig_span = pts.length - 1 := rfl

theorem fitIter_snd_bounds (sq : ℚ → ℚ) (pts : List Pt) (tl tr : Pt) (err_sq : ℚ)
    (h3 : 3 ≤ pts.length) :
    ∀ (fuel : ℕ) (c : Cubic) (u : List ℚ) (sp : ℕ) (o : Option Cubic) (k : ℕ),
      fitIter sq pts tl tr err_sq fuel c u sp = (o, k) →
      1 ≤ sp → sp ≤ pts.length - 2 → 1 ≤ k ∧ k ≤ pts.length - 2 := by
  intro fuel
  induction fuel with
  | zero =>
    intro c u sp o k hI h1 h2
    simp only [fitIter] at hI
    cases hI
    exact ⟨h1, h2⟩
  | succ fuel ih =>
    intro c u sp o k hI h1 h2
    rw [fitIter] at hI
    cases hrep : cubic_reparameterize c pts u with
    | none =>
      rw [hrep] at hI
      cases hI
      exact ⟨h1, h2⟩
    | some up =>
      rw [hrep] at hI
      simp only [] at hI
      by_cases hacc : (cubic_calc_error (cubic_from_points sq pts up tl tr) pts up).1 < err_sq
      · rw [if_pos hacc] at hI
        cases hI
        exact cubic_calc_error_index_bounds _ pts up h3
      · rw [if_neg hacc] at hI
        have hb := cubic_calc_error_index_bounds (cubic_from_points sq pts up tl tr) pts up h3
        exact ih _ _ _ _ _ hI hb.1 hb.2

theorem fitIter_fst_none (sq : ℚ → ℚ) (pts : List Pt) (tl tr : Pt) (err_sq : ℚ)
    (he : err_sq ≤ 0) :
    ∀ (fuel : ℕ) (c : Cubic) (u : List ℚ) (sp : ℕ),
      (fitIter sq pts tl tr err_sq fuel c u sp).1 = none := by
  intro fuel
  induction fuel with
  | zero => intro c u sp; rfl
  | succ fuel ih =>
    intro c u sp
    rw [fitIter]
    cases hrep : cubic_reparameterize c pts u with
    | none => rfl
    | some up =>
      simp only []
      rw [if_neg]
      · exact ih _ _ _
      · intro hlt
        have h0 := cubic_calc_error_fst_nonneg (cubic_from_points sq pts up tl tr) pts up
        linarith

theorem fitIter_some_orig_span (sq : ℚ → ℚ) (pts : List Pt) (tl tr : Pt) (err_sq : ℚ) :
    ∀ (fuel : ℕ) (c : Cubic) (u : List ℚ) (sp : ℕ) (c2 : Cubic) (k : ℕ),
      fitIter sq pts tl tr err_sq fuel c u sp = (some c2, k) →
      c2.orig_span = pts.length - 1 := by
  intro fuel
  induction fuel with
  | zero =>
    intro c u sp c2 k hI
    simp only [fitIter] at hI
    cases hI
  | succ fuel ih =>
    intro c u sp c2 k hI
    rw [fitIter] at hI
    cases hrep : cubic_reparameterize c pts u with
    | none => rw [hrep] at hI; cases hI
    | some up =>
      rw [hrep] at hI
      simp only [] at hI
      by_cases hacc : (cubic_calc_error (cubic_from_points sq pts up tl tr) pts up).1 < err_sq
      · rw [if_pos hacc] at hI
        cases hI
        exact cubic_from_points_orig_span sq pts up tl tr
      · rw [if_neg hacc] at hI
        exact ih _ _ _ _ _ hI

theorem fitFuel_spans_sum (sq : ℚ → ℚ) :
    ∀ (fuel : ℕ) (pts : List Pt) (cache : List ℚ) (tl tr : Pt) (err : ℚ),
      2 ≤ pts.length → pts.length ≤ fuel →
      ((fitFuel sq fuel pts cache tl tr err).map Cubic.orig_span).sum + 1 = pts.length := by
  intro fuel
  induction fuel with
  | zero => intro pts cache tl tr err h2 hf; omega
  | succ fuel ih =>
    intro pts cache tl tr err h2 hf
    rw [fitFuel]
    simp only []
    by_cases h3 : pts.length < 3
    · rw [if_pos h3]
      simp only [List.map_cons, List.map_nil, List.sum_cons, List.sum_nil]
      omega
    · rw [if_neg h3]
      have h3' : 3 ≤ pts.length := by omega
      by_cases hacc : (cubic_calc_error
          (cubic_from_points sq pts (points_calc_coord_length cache pts.length) tl tr) pts
          (points_calc_coord_length cache pts.length)).1 < err * err
      · rw [if_pos hacc]
        simp only [List.map_cons, List.map_nil, List.sum_cons, List.sum_nil,
          cubic_from_points_orig_span]
        omega
      · rw [if_neg hacc]
        rcases hI : fitIter sq pts tl tr (err * err) 4
            (cubic_from_points sq pts (points_calc_coord_length cache pts.length) tl tr)
            (points_calc_coord_length cache pts.length)
            (cubic_calc_error
              (cubic_from_points sq pts (points_calc_coord_length cache pts.length) tl tr) pts
              (points_calc_coord_length cache pts.length)).2
          with ⟨o, k⟩
        cases o with
        | some c2 =>
          simp only [List.map_cons, List.map_nil, List.sum_cons, List.sum_nil]
          have hspan := fitIter_some_orig_span sq pts tl tr (err * err) 4 _ _ _ _ _ hI
          omega
        | none =>
          simp only []
          have hb0 := cubic_calc_error_index_bounds
            (cubic_from_points sq pts (points_calc_coord_length cache pts.length) tl tr) pts
            (points_calc_coord_length cache pts.length) h3'
          have hsp := fitIter_snd_bounds sq pts tl tr (err * err) h3' 4 _ _ _ _ _ hI hb0.1 hb0.2
          rw [List.map_append, List.sum_append]
          have hlt : (pts.take (k + 1)).length = k + 1 := by
            rw [List.length_take]; exact Nat.min_eq_left (by omega)
          have hld : (pts.drop k).length = pts.length - k := List.length_drop k pts
          have hL := ih (pts.take (k + 1)) (cache.take (k + 1)) tl
            (fit_split_tangent sq pts k) err (by rw [hlt]; omega) (by rw [hlt]; omega)
          have hR := ih (pts.drop k) (cache.drop k) (fit_split_tangent sq pts k) tr err
            (by rw [hld]; omega) (by rw [hld]; omega)
          rw [hlt] at hL
          rw [hld] at hR
          omega

theorem fitFuel_zero_threshold_spans (sq : ℚ → ℚ) :
    ∀ (fuel : ℕ) (pts : List Pt) (cache : List ℚ) (tl tr : Pt),
      2 ≤ pts.length → pts.length ≤ fuel →
      (fitFuel sq fuel pts cache tl tr 0).map Cubic.orig_span =
        List.replicate (pts.length - 1) 1 := by
  intro fuel
  induction fuel with
  | zero => intro pts cache tl tr h2 hf; omega
  | succ fuel ih =>
    intro pts cache tl tr h2 hf
    rw [fitFuel]
    simp only []
    by_cases h3 : pts.length < 3
    · rw [if_pos h3]
      have hl2 : pts.length = 2 := by omega
      rw [hl2]
      simp
    · rw [if_neg h3]
      have h3' : 3 ≤ pts.length := by omega
      by_cases hacc : (cubic_calc_error
          (cubic_from_points sq pts (points_calc_coord_length cache pts.length) tl tr) pts
          (points_calc_coord_length cache pts.length)).1 < 0 * 0
      · exfalso
        have h0 := cubic_calc_error_fst_nonneg
          (cubic_from_points sq pts (points_calc_coord_length cache pts.length) tl tr) pts
          (points_calc_coord_length cache pts.length)
        rw [mul_zero] at hacc
        linarith
      · rw [if_neg hacc]
        rcases hI : fitIter sq pts tl tr (0 * 0) 4
            (cubic_from_points sq pts (points_calc_coord_length cache pts.length) tl tr)
            (points_calc_coord_length cache pts.length)
            (cubic_calc_error
              (cubic_from_points sq pts (points_calc_coord_length cache pts.length) tl tr) pts
              (points_calc_coord_length cache pts.length)).2
          with ⟨o, k⟩
        cases o with
        | some c2 =>
          exfalso
          have := fitIter_fst_none sq pts tl tr (0 * 0) (by rw [mul_zero]) 4
            (cubic_from_points sq pts (points_calc_coord_length cache pts.length) tl tr)
            (points_calc_coord_length cache pts.length)
            (cubic_calc_error
              (cubic_from_points sq pts (points_calc_coord_length cache pts.length) tl tr) pts
              (points_calc_coord_length cache pts.length)).2
          rw [hI] at this
          exact Option.some_ne_none c2 this
        | none =>
          simp only []
          have hb0 := cubic_calc_error_index_bounds
            (cubic_from_points sq pts (points_calc_coord_length cache pts.length) tl tr) pts
            (points_calc_coord_length cache pts.length) h3'
          have hsp := fitIter_snd_bounds sq pts tl tr (0 * 0) h3' 4 _ _ _ _ _ hI hb0.1 hb0.2
          rw [List.map_append]
          have hlt : (pts.take (k + 1)).length = k + 1 := by
            rw [List.length_take]; exact Nat.min_eq_left (by omega)
          have hld : (pts.drop k).length = pts.length - k := List.length_drop k pts
          have hL := ih (pts.take (k + 1)) (cache.take (k + 1)) tl
            (fit_split_tangent sq pts k) (by rw [hlt]; omega) (by rw [hlt]; omega)
          have hR := ih (pts.drop k) (cache.drop k) (fit_split_tangent sq pts k) tr
            (by rw [hld]; omega) (by rw [hld]; omega)
          rw [hL, hR, hlt, hld]
          rw [show k + 1 - 1 = k from rfl]
          rw [show pts.length - k - 1 = pts.length - 1 - k by omega]
          rw [← List.replicate_add]
          congr 1
          omega

theorem run_fit_spans_sum (sq : ℚ → ℚ) (junk : ℕ) (pts : List Pt) (err : ℚ) (a b : ℕ)
    (hab : a < b) (hb : b < pts.length) :
    ((run_fit sq junk pts err a b).map Cubic.orig_span).sum + a = b := by
  unfold run_fit
  rw [if_pos (show 1 < b - a + 1 by omega)]
  simp only []
  unfold fit_cubic_to_points
  have hlen : ((pts.drop a).take (b - a + 1)).length = b - a + 1 := by
    rw [List.length_take, List.length_drop]
    exact Nat.min_eq_left (by omega)
  have h := fitFuel_spans_sum sq ((pts.drop a).take (b - a + 1)).length
    ((pts.drop a).take (b - a + 1))
    (points_calc_coord_length_cache sq ((pts.drop a).take (b - a + 1)))
    (normalize_vn_vnvn sq (((pts.drop a).take (b - a + 1)).headD [])
      (((pts.drop a).take (b - a + 1)).getD 1 []))
    (normalize_vn_vnvn sq (((pts.drop a).take (b - a + 1)).getD (b - a + 1 - 2) [])
      (((pts.drop a).take (b - a + 1)).getD (b - a + 1 - 1) []))
    err (by rw [hlen]; omega) le_rfl
  rw [hlen] at h
  rw [hlen]
  omega

theorem driver_loop_fst (sq : ℚ → ℚ) (junk : ℕ) (pts : List Pt) (err : ℚ) :
    ∀ (pairs : List (ℕ × ℕ)) (clist : List Cubic) (arr : List ℕ),
      (driver_loop sq junk pts err pairs (clist, arr)).1 =
        clist ++ pairs.flatMap (fun pr => run_fit sq junk pts err pr.1 pr.2) := by
  intro pairs
  induction pairs with
  | nil => intro clist arr; simp [driver_loop]
  | cons pr rest ih =>
    intro clist arr
    rw [driver_loop]
    simp only []
    rw [ih, List.flatMap_cons, List.append_assoc]

theorem driver_loop_snd (sq : ℚ → ℚ) (junk : ℕ) (pts : List Pt) (err : ℚ) :
    ∀ (pairs : List (ℕ × ℕ)) (clist : List Cubic) (arr : List ℕ),
      (driver_loop sq junk pts err pairs (clist, arr)).2 =
        arr ++ (List.range pairs.length).map
          (fun j => clist.length +
            ((pairs.take (j + 1)).flatMap (fun pr => run_fit sq junk pts err pr.1 pr.2)).length) := by
  intro pairs
  induction pairs with
  | nil => intro clist arr; simp [driver_loop]
  | cons pr rest ih =>
    intro clist arr
    rw [driver_loop]
    simp only [List.length_cons]
    rw [ih, List.range_succ_eq_map, List.map_cons, List.map_map, List.append_assoc,
      List.singleton_append]
    congr 1
    congr 1
    · rw [List.take_succ_cons, List.take_zero, List.flatMap_cons, List.flatMap_nil,
        List.append_nil, List.length_append]
    · apply List.map_congr_left
      intro j _
      simp only [Function.comp_apply, Nat.succ_eq_add_one, List.take_succ_cons,
        List.flatMap_cons, List.length_append]
      omega

theorem corner_pairs_spans_sum (sq : ℚ → ℚ) (junk : ℕ) (pts : List Pt) (err : ℚ) :
    ∀ (cs : List ℕ), List.Chain' (fun a b => a < b) cs → (∀ c ∈ cs, c < pts.length) →
      cs ≠ [] →
      ((((cs.zip cs.tail).flatMap (fun pr => run_fit sq junk pts err pr.1 pr.2)).map
          Cubic.orig_span).sum) + cs.headD 0 = cs.getLastD 0 := by
  intro cs
  induction cs with
  | nil => intro _ _ h; exact absurd rfl h
  | cons a t ih =>
    cases t with
    | nil => intro _ _ _; simp
    | cons b t2 =>
      intro hch hmem _
      rw [List.chain'_cons] at hch
      rw [show (a :: b :: t2).tail = b :: t2 from rfl, List.zip_cons_cons,
        List.flatMap_cons, List.map_append, List.sum_append]
      have h1 := run_fit_spans_sum sq junk pts err a b hch.1
        (hmem b (List.mem_cons_of_mem a (List.mem_cons_self b t2)))
      have h2 := ih hch.2 (fun c hc => hmem c (List.mem_cons_of_mem a hc))
        (List.cons_ne_nil b t2)
      simp only [List.tail_cons] at h2
      rw [List.getLastD_cons]
      simp only [List.headD] at h2 ⊢
      have hbt : (b :: t2).getLastD a = (b :: t2).getLastD 0 := by
        rw [List.getLastD_cons, List.getLastD_cons]
      rw [hbt]
      omega

theorem getLastD_mem_cons : ∀ (l : List ℚ) (a d : ℚ), (a :: l).getLastD d ∈ a :: l := by
  intro l
  induction l with
  | nil => intro a d; simp [List.getLastD]
  | cons b t ih =>
    intro a d
    rw [List.getLastD_cons]
    exact List.mem_cons_of_mem a (ih b a)

theorem sorted_le_getLastD : ∀ (l : List ℚ) (d : ℚ),
    List.Sorted (fun x y => x ≤ y) l → ∀ x ∈ l, x ≤ l.getLastD d := by
  intro l
  induction l with
  | nil => intro d _ x hx; simp at hx
  | cons h t ih =>
    intro d hs x hx
    rw [List.sorted_cons] at hs
    rw [List.getLastD_cons]
    rcases List.mem_cons.1 hx with rfl | hx2
    · cases t with
      | nil => simp [List.getLastD]
      | cons y t2 => exact hs.1 _ (getLastD_mem_cons t2 y x)
    · exact ih h hs.2 x hx2

theorem sorted_headD_le : ∀ (l : List ℚ) (d : ℚ),
    List.Sorted (fun x y => x ≤ y) l → ∀ x ∈ l, l.headD d ≤ x := by
  intro l d hs x hx
  cases l with
  | nil => simp at hx
  | cons h t =>
    rw [List.sorted_cons] at hs
    rcases List.mem_cons.1 hx with rfl | hx2
    · simp
    · simpa using hs.1 x hx2

theorem mapM_option_eq_none_iff (f : ℕ → Option ℚ) :
    ∀ (l : List ℕ), l.mapM f = none ↔ ∃ a ∈ l, f a = none := by
  intro l
  induction l with
  | nil =>
    constructor
    · intro h
      rw [show (([] : List ℕ).mapM f) = some [] from rfl] at h
      cases h
    · rintro ⟨x, hx, _⟩
      exact absurd hx (List.not_mem_nil x)
  | cons a t ih =>
    have hcons : (a :: t).mapM f =
        (f a).bind (fun b => (t.mapM f).bind (fun res => some (b :: res))) := by
      rw [List.mapM_cons]
      rfl
    rw [hcons]
    cases hfa : f a with
    | none =>
      simp only [Option.none_bind]
      constructor
      · intro _
        exact ⟨a, List.mem_cons_self a t, hfa⟩
      · intro _; trivial
    | some b =>
      simp only [Option.some_bind]
      cases hmt : t.mapM f with
      | none =>
        have hex := ih.1 hmt
        simp only [Option.none_bind]
        constructor
        · intro _
          obtain ⟨x, hx, hfx⟩ := hex
          exact ⟨x, List.mem_cons_of_mem a hx, hfx⟩
        · intro _; trivial
      | some res =>
        have hne : ¬∃ x ∈ t, f x = none := fun hex => by
          have h2 := ih.2 hex
          rw [hmt] at h2
          exact Option.some_ne_none res h2
        simp only [Option.some_bind]
        constructor
        · intro h
          cases h
        · rintro ⟨x, hx, hfx⟩
          rcases List.mem_cons.1 hx with rfl | hx2
          · rw [hfa] at hfx; cases hfx
          · exact absurd ⟨x, hx2, hfx⟩ hne

theorem cubic_from_points_acc_foldl (pts : List Pt) (u : List ℚ) (tl tr : Pt) :
    ∀ (l : List ℕ) (acc : ℚ × ℚ × ℚ × ℚ × ℚ),
      l.foldl (cubic_from_points_step pts u tl tr) acc =
        (acc.1 + (l.map (fun i => dot_vnvn (mul_vnvn_fl tl (B1 (u.getD i 0)))
            (mul_vnvn_fl tl (B1 (u.getD i 0))))).sum,
         acc.2.1 + (l.map (fun i => dot_vnvn (mul_vnvn_fl tl (B1 (u.getD i 0)))
            (mul_vnvn_fl tr (B2 (u.getD i 0))))).sum,
         acc.2.2.1 + (l.map (fun i => dot_vnvn (mul_vnvn_fl tr (B2 (u.getD i 0)))
            (mul_vnvn_fl tr (B2 (u.getD i 0))))).sum,
         acc.2.2.2.1 + (l.map (fun i => dot_vnvn (mul_vnvn_fl tl (B1 (u.getD i 0)))
            (cubic_from_points_tmp pts u i))).sum,
         acc.2.2.2.2 + (l.map (fun i => dot_vnvn (mul_vnvn_fl tr (B2 (u.getD i 0)))
            (cubic_from_points_tmp pts u i))).sum) := by
  intro l
  induction l with
  | nil => intro acc; simp
  | cons i t ih =>
    intro acc
    rw [List.foldl_cons, ih]
    simp only [cubic_from_points_step, List.map_cons, List.sum_cons, Prod.mk.injEq]
    refine ⟨by ring, by ring, by ring, by ring, by ring⟩

/-! The claims. -/

/-- C4: for every run of at least 3 points, every candidate cubic and every
parameter vector, the worst-error index returned by the error evaluator is
interior: at least 1 and at most n - 2 (and hence so is the split index the
fit recursion uses, which is the index of the last error measurement). -/
theorem claim_C4_split_interior (c : Cubic) (pts : List Pt) (u : List ℚ)
    (h : 3 ≤ pts.length) :
    1 ≤ (cubic_calc_error c pts u).2 ∧ (cubic_calc_error c pts u).2 ≤ pts.length - 2 :=
  cubic_calc_error_index_bounds c pts u h

/-- Witness for C4 at a concrete 3-point run. -/
theorem claim_C4_witness :
    1 ≤ (cubic_calc_error ⟨[0], [0], [0], [1], 1⟩ [[(0 : ℚ)], [5], [1]] [0, 1/2, 1]).2 ∧
    (cubic_calc_error ⟨[0], [0], [0], [1], 1⟩ [[(0 : ℚ)], [5], [1]] [0, 1/2, 1]).2 ≤
      ([[(0 : ℚ)], [5], [1]] : List Pt).length - 2 :=
  claim_C4_split_interior ⟨[0], [0], [0], [1], 1⟩ [[(0 : ℚ)], [5], [1]] [0, 1/2, 1]
    (by norm_num)

/-- C7: whenever either raw Cramer solution alpha is negative (in machine
arithmetic the same test, written as the negation of alpha being at least 0,
also catches NaN), both alphas are replaced by the heuristic distance
between the endpoints divided by 3 before the handles are formed from
them. -/
theorem claim_C7_alpha_fallback (sq : ℚ → ℚ) (pts : List Pt) (u : List ℚ) (tl tr : Pt)
    (h : ¬((cubic_from_points_alphas pts u tl tr).1 ≥ 0) ∨
         ¬((cubic_from_points_alphas pts u tl tr).2 ≥ 0)) :
    cubic_from_points_alphas_checked sq pts u tl tr =
      (len_vnvn sq (pts.headD []) (pts.getLastD []) / 3,
       len_vnvn sq (pts.headD []) (pts.getLastD []) / 3) := by
  unfold cubic_from_points_alphas_checked
  rw [if_pos h]

/-- Witness for C7: a concrete one-dimensional input whose raw Cramer
solution is negative, so the heuristic (which is 0 here, the endpoints
coincide) replaces both alphas. -/
theorem claim_C7_witness :
    cubic_from_points_alphas_checked sqrt_test [[0], [-1], [-1], [0]]
      [0, 1/3, 2/3, 1] [1] [1] = (0, 0) := by
  have h : ¬((cubic_from_points_alphas [[0], [-1], [-1], [0]] [0, 1/3, 2/3, 1] [1] [1]).1 ≥ 0) ∨
      ¬((cubic_from_points_alphas [[0], [-1], [-1], [0]] [0, 1/3, 2/3, 1] [1] [1]).2 ≥ 0) := by
    left
    norm_num [cubic_from_points_alphas, cubic_from_points_acc, cubic_from_points_step,
      cubic_from_points_tmp, dot_vnvn, mul_vnvn_fl, B1, B2, B0plusB1, B2plusB3,
      is_almost_zero, List.range_succ]
    rw [if_neg (show ¬|(16 : ℚ)/729| < 1/100000000 by
      rw [show |(16 : ℚ)/729| = 16/729 from abs_of_pos (by norm_num)]
      norm_num)]
    norm_num
  have h2 := claim_C7_alpha_fallback sqrt_test [[0], [-1], [-1], [0]] [0, 1/3, 2/3, 1] [1] [1] h
  rw [h2]
  norm_num [len_vnvn, len_squared_vnvn, sqrt_test]

/-- C8: a run of exactly two points emits exactly one segment, with no
parameterization and no recursion: P0 and P3 are the two input points,
both alphas are the endpoint distance divided by 3, P1 = P0 - tan_l * alpha,
P2 = P3 + tan_r * alpha, and orig_span is 1. -/
theorem claim_C8_two_point (sq : ℚ → ℚ) (pa pb : Pt) (cache : List ℚ) (tl tr : Pt) (err : ℚ) :
    fit_cubic_to_points sq [pa, pb] cache tl tr err =
      [⟨pa, msub_vn_vnvn_fl pa tl (len_vnvn sq pa pb / 3),
          madd_vn_vnvn_fl pb tr (len_vnvn sq pa pb / 3), pb, 1⟩] := rfl

/-- C1: the velocity evaluator does not compute the derivative form stated
by the spec.  At the cubic with one-dimensional control points
P0 = 0, P1 = 1, P2 = 0, P3 = 0 and t = 1/2, the code returns 3/4, while the
spec formula 3 * (s^2 * (P1 - P0) + 2 * s * t * (P2 - P1) + t^2 * (P3 - P2))
gives -3/4 there: the source uses (p2 - p0) in the middle term where the
derivative requires (p2 - p1).  The last conjunct shows the spec formula is
exactly the derivative of the position evaluator of the same file: the
position at t + h is the position at t plus h times the spec formula plus a
remainder of order h^2 (an exact Taylor expansion of the cubic). -/
theorem claim_C1_speed_code_bug :
    cubic_calc_speed ⟨[0], [1], [0], [0], 1⟩ (1/2) = [3/4] ∧
    3 * (((1 : ℚ) - 1/2) ^ 2 * ((1 : ℚ) - 0) + 2 * ((1 : ℚ) - 1/2) * (1/2) * ((0 : ℚ) - 1) +
        (1/2) ^ 2 * ((0 : ℚ) - 0)) = -(3/4) ∧
    (∀ p0 p1 p2 p3 t h : ℚ,
      (cubic_calc_point ⟨[p0], [p1], [p2], [p3], 1⟩ (t + h)).getD 0 0 =
        (cubic_calc_point ⟨[p0], [p1], [p2], [p3], 1⟩ t).getD 0 0 +
        h * (3 * ((1 - t) ^ 2 * (p1 - p0) + 2 * (1 - t) * t * (p2 - p1) +
          t ^ 2 * (p3 - p2))) +
        h ^ 2 * (3 * ((1 - t) * (p2 - 2 * p1 + p0) + t * (p3 - 2 * p2 + p1)) +
          h * (p3 - 3 * p2 + 3 * p1 - p0))) := by
  refine ⟨?_, by norm_num, ?_⟩
  · norm_num [cubic_calc_speed, List.zipWith3]
  · intro p0 p1 p2 p3 t h
    simp only [cubic_calc_point, List.zipWith3, List.zipWith, List.getD_cons_zero]
    ring

/-- Counterexample for C2: at points [0], [6] with u = [1/2, 1] and unit
tangents, the residual the source brackets as
(pt - p0 * b0_plus_b1) + p3 * b2_plus_b3 is [3] at sample 0, while the
claimed form pt - p0 * (B0 + B1) - p3 * (B2 + B3) is [-3] there, and the
accumulated X entry is 9/8 where the claimed form would accumulate -9/8:
the two bracketings are not equivalent. -/
theorem claim_C2_counterexample :
    cubic_from_points_tmp [[0], [6]] [1/2, 1] 0 = [3] ∧
    List.zipWith3 (fun ptj p0j p3j => ptj - p0j * B0plusB1 ((1 : ℚ)/2) - p3j * B2plusB3 ((1 : ℚ)/2))
      [(0 : ℚ)] [0] [6] = [-3] ∧
    (cubic_from_points_acc [[0], [6]] [1/2, 1] [1] [1]).2.2.2.1 = 9/8 ∧
    ((3 : ℚ) = -3 → False) := by
  refine ⟨?_, ?_, ?_, by norm_num⟩
  · norm_num [cubic_from_points_tmp, B0plusB1, B2plusB3]
  · norm_num [List.zipWith3, B0plusB1, B2plusB3]
  · norm_num [cubic_from_points_acc, cubic_from_points_step, cubic_from_points_tmp,
      dot_vnvn, mul_vnvn_fl, B1, B2, B0plusB1, B2plusB3, List.range_succ]

/-- C2 (amended): the least-squares accumulation adds into X, for every
sample i, the dot products of a0 and a1 with the residual bracketed as in
the source, (pt - p0 * b0_plus_b1) + p3 * b2_plus_b3; this differs from the
double-minus form whenever p3 * (B2 + B3)(u_i) is nonzero. -/
theorem claim_C2_amended (pts : List Pt) (u : List ℚ) (tl tr : Pt) :
    (cubic_from_points_acc pts u tl tr).2.2.2.1 =
      ((List.range pts.length).map
        (fun i => dot_vnvn (mul_vnvn_fl tl (B1 (u.getD i 0))) (cubic_from_points_tmp pts u i))).sum ∧
    (cubic_from_points_acc pts u tl tr).2.2.2.2 =
      ((List.range pts.length).map
        (fun i => dot_vnvn (mul_vnvn_fl tr (B2 (u.getD i 0))) (cubic_from_points_tmp pts u i))).sum := by
  unfold cubic_from_points_acc
  rw [cubic_from_points_acc_foldl]
  constructor <;> simp

/-- C9: with error threshold 0 the acceptance test compares the maximal
squared deviation strictly against 0, so no direct or reparameterized fit
of a run of 3 or more points is ever accepted; the recursion splits down to
two-point base cases and every emitted segment has orig_span exactly 1, the
segment count being the interval count of the run. -/
theorem claim_C9_zero_threshold (sq : ℚ → ℚ) (pts : List Pt) (cache : List ℚ) (tl tr : Pt)
    (h : 2 ≤ pts.length) :
    (fit_cubic_to_points sq pts cache tl tr 0).map Cubic.orig_span =
      List.replicate (pts.length - 1) 1 :=
  fitFuel_zero_threshold_spans sq pts.length pts cache tl tr h le_rfl

/-- Witness for C9 at a concrete two-point run. -/
theorem claim_C9_witness :
    (fit_cubic_to_points sqrt_test [[0], [1]] [0, 1] [1] [-1] 0).map Cubic.orig_span =
      List.replicate 1 1 := by
  have h := claim_C9_zero_threshold sqrt_test [[0], [1]] [0, 1] [1] [-1] (by norm_num)
  simpa using h

/-- C6: for strictly ascending corners that stay inside the input, the sum
of orig_span over all segments the driver loop accumulates equals the last
corner minus the first corner. -/
theorem claim_C6_orig_span_sum (sq : ℚ → ℚ) (junk : ℕ) (pts : List Pt) (err : ℚ)
    (cs : List ℕ) (hch : List.Chain' (fun a b => a < b) cs) (hlen : 2 ≤ cs.length)
    (hmem : ∀ c ∈ cs, c < pts.length) :
    (((driver_loop sq junk pts err (cs.zip cs.tail) ([], [])).1).map Cubic.orig_span).sum
      + cs.headD 0 = cs.getLastD 0 := by
  rw [driver_loop_fst, List.nil_append]
  refine corner_pairs_spans_sum sq junk pts err cs hch hmem ?_
  rintro rfl
  simp at hlen

/-- Witness for C6 at a concrete two-point input with default-style corners. -/
theorem claim_C6_witness :
    (((driver_loop sqrt_test 0 [[0], [1]] 1 (([0, 1] : List ℕ).zip ([0, 1] : List ℕ).tail)
        ([], [])).1).map Cubic.orig_span).sum
      + ([0, 1] : List ℕ).headD 0 = ([0, 1] : List ℕ).getLastD 0 :=
  claim_C6_orig_span_sum sqrt_test 0 [[0], [1]] 1 [0, 1] (by simp) (by decide) (by decide)

/-- C10: the float entry point is extensionally the composition widen,
double entry point, narrow: it agrees with the spec-side composition, and
its status, knot count, orig-index array and corner-index array are exactly
the ones of the double entry point on the widened input, the cubic array
being that one narrowed coordinatewise. -/
theorem claim_C10_float_wrapper (sq : ℚ → ℚ) (junk : ℕ) (widen narrow : ℚ → ℚ)
    (pts : List Pt) (err : ℚ) (corners : Option (List ℕ)) (wo wc : Bool) :
    curve_fit_cubic_to_points_fl sq junk widen narrow pts err corners wo wc =
      curve_fit_cubic_to_points_fl_spec sq junk widen narrow pts err corners wo wc ∧
    (curve_fit_cubic_to_points_fl sq junk widen narrow pts err corners wo wc).status =
      (curve_fit_cubic_to_points_db sq junk (pts.map (fun p => p.map widen)) (widen err)
        corners wo wc).status ∧
    (curve_fit_cubic_to_points_fl sq junk widen narrow pts err corners wo wc).cubic_array_len =
      (curve_fit_cubic_to_points_db sq junk (pts.map (fun p => p.map widen)) (widen err)
        corners wo wc).cubic_array_len ∧
    (curve_fit_cubic_to_points_fl sq junk widen narrow pts err corners wo wc).orig_index =
      (curve_fit_cubic_to_points_db sq junk (pts.map (fun p => p.map widen)) (widen err)
        corners wo wc).orig_index ∧
    (curve_fit_cubic_to_points_fl sq junk widen narrow pts err corners wo wc).corner_index =
      (curve_fit_cubic_to_points_db sq junk (pts.map (fun p => p.map widen)) (widen err)
        corners wo wc).corner_index ∧
    (curve_fit_cubic_to_points_fl sq junk widen narrow pts err corners wo wc).cubic_array =
      ((curve_fit_cubic_to_points_db sq junk (pts.map (fun p => p.map widen)) (widen err)
        corners wo wc).cubic_array).map (fun v => v.map narrow) :=
  ⟨rfl, rfl, rfl, rfl, rfl, rfl⟩

/-- C5: the reparameterization is invalid exactly when some Newton root is
non-finite (a zero denominator in the exact model) or the sorted roots
leave the unit interval, and a valid result is sorted non-decreasing with
every entry between 0 and 1 (on invalid results the fit loop breaks and the
caller keeps the previous parameter vector, see fitIter). -/
theorem claim_C5_reparameterize (c : Cubic) (pts : List Pt) (u : List ℚ) :
    (cubic_reparameterize c pts u = none ↔
      (∃ i < pts.length, cubic_find_root c (pts.getD i []) (u.getD i 0) = none) ∨
      (∃ roots, (List.range pts.length).mapM
          (fun i => cubic_find_root c (pts.getD i []) (u.getD i 0)) = some roots ∧
        ((List.insertionSort (fun a b => a ≤ b) roots).headD 0 < 0 ∨
          1 < (List.insertionSort (fun a b => a ≤ b) roots).getLastD 0))) ∧
    (∀ l, cubic_reparameterize c pts u = some l →
      List.Sorted (fun a b => a ≤ b) l ∧ ∀ x ∈ l, 0 ≤ x ∧ x ≤ 1) := by
  unfold cubic_reparameterize
  cases hm : (List.range pts.length).mapM
      (fun i => cubic_find_root c (pts.getD i []) (u.getD i 0)) with
  | none =>
    constructor
    · constructor
      · intro _
        left
        obtain ⟨a, ha, hfa⟩ := (mapM_option_eq_none_iff _ _).1 hm
        exact ⟨a, List.mem_range.1 ha, hfa⟩
      · intro _
        rfl
    · intro l hl
      cases hl
  | some roots =>
    simp only []
    by_cases hcond : (List.insertionSort (fun a b => a ≤ b) roots).headD 0 < 0 ∨
        1 < (List.insertionSort (fun a b => a ≤ b) roots).getLastD 0
    · rw [if_pos hcond]
      constructor
      · constructor
        · intro _
          right
          exact ⟨roots, rfl, hcond⟩
        · intro _
          rfl
      · intro l hl
        cases hl
    · rw [if_neg hcond]
      constructor
      · constructor
        · intro h
          cases h
        · rintro (⟨i, hi, hnone⟩ | ⟨roots2, hr2, hcond2⟩)
          · have hnone2 := (mapM_option_eq_none_iff
                (fun i => cubic_find_root c (pts.getD i []) (u.getD i 0))
                (List.range pts.length)).2 ⟨i, List.mem_range.2 hi, hnone⟩
            rw [hm] at hnone2
            cases hnone2
          · injection hr2 with hr3
            subst hr3
            exact absurd hcond2 hcond
      · intro l hl
        injection hl with hl2
        subst hl2
        refine ⟨List.sorted_insertionSort _ _, ?_⟩
        intro x hx
        push_neg at hcond
        constructor
        · exact le_trans hcond.1 (sorted_headD_le _ 0 (List.sorted_insertionSort _ _) x hx)
        · exact le_trans (sorted_le_getLastD _ 0 (List.sorted_insertionSort _ _) x hx) hcond.2

/-- Witness for C5: a concrete valid reparameterization, whose output is
sorted and inside the unit interval. -/
theorem claim_C5_witness :
    List.Sorted (fun a b => a ≤ b) [(0 : ℚ), 1] ∧ ∀ x ∈ [(0 : ℚ), 1], 0 ≤ x ∧ x ≤ 1 := by
  refine (claim_C5_reparameterize ⟨[0], [1/3], [2/3], [1], 1⟩ [[0], [1]] [0, 1]).2 [0, 1] ?_
  norm_num [cubic_reparameterize, cubic_find_root, cubic_calc_point, cubic_calc_speed,
    cubic_calc_acceleration, len_squared_vn, dot_vnvn, List.zipWith3, List.range_succ,
    List.mapM, List.mapM.loop, List.insertionSort, List.orderedInsert]

theorem getD_map_range (m : ℕ) (f : ℕ → ℕ) :
    ∀ j, j < m → ((List.range m).map f).getD j 0 = f j := by
  intro j hj
  rw [List.getD_eq_getElem?_getD, List.getElem?_map, List.getElem?_range hj]
  rfl

/-- C3 (amended): whenever the caller supplies corners and requests the
corner-index output, the returned array has one entry per corner; entry 0
is corners[0] itself (not the cumulative segment count, which is 0 there),
and for every j at least 1 the entry is the cumulative number of segments
emitted for the first j runs. -/
theorem claim_C3_amended (sq : ℚ → ℚ) (junk : ℕ) (pts : List Pt) (err : ℚ) (cs : List ℕ)
    (wo : Bool) (hne : cs ≠ []) :
    ∃ arr,
      (curve_fit_cubic_to_points_db sq junk pts err (some cs) wo true).corner_index = some arr ∧
      arr.length = cs.length ∧
      arr.getD 0 0 = cs.headD 0 ∧
      ∀ j, 1 ≤ j → j < cs.length →
        arr.getD j 0 =
          (((cs.zip cs.tail).take j).flatMap
            (fun pr => run_fit sq junk pts err pr.1 pr.2)).length := by
  have hm : (cs.zip cs.tail).length = cs.length - 1 := by
    rw [List.length_zip, List.length_tail]
    have := List.length_pos.2 hne
    omega
  refine ⟨cs.headD 0 :: (driver_loop sq junk pts err (cs.zip cs.tail) ([], [])).2,
    rfl, ?_, ?_, ?_⟩
  · rw [List.length_cons, driver_loop_snd, List.nil_append, List.length_map,
      List.length_range, hm]
    have := List.length_pos.2 hne
    omega
  · rfl
  · intro j hj1 hj2
    obtain ⟨jj, rfl⟩ : ∃ jj, j = jj + 1 := ⟨j - 1, by omega⟩
    rw [List.getD_cons_succ, driver_loop_snd, List.nil_append]
    rw [getD_map_range _ _ jj (by rw [hm]; omega)]
    simp

set_option maxHeartbeats 1000000 in
/-- Counterexample for C3: with 4 one-dimensional points and corners [1, 3],
a threshold large enough that the single run is fitted by one segment, the
returned corner index array is [1, 1]: its first entry is corners[0] = 1,
not 0, even though no segments precede the first corner. -/
theorem claim_C3_counterexample :
    (curve_fit_cubic_to_points_db sqrt_test 0 [[0], [1], [2], [3]] 10
        (some [1, 3]) false true).corner_index = some [1, 1] ∧
    ((1 : ℕ) = 0 → False) := by
  have hal : cubic_from_points_alphas_checked sqrt_test [[(1 : ℚ)], [2], [3]]
      [0, 1/2, 1] [-1] [-1] = (0, 0) := by
    norm_num [cubic_from_points_alphas_checked, cubic_from_points_alphas,
      cubic_from_points_acc, cubic_from_points_step, cubic_from_points_tmp, dot_vnvn,
      mul_vnvn_fl, B1, B2, B0plusB1, B2plusB3, is_almost_zero, List.range_succ,
      List.getD, List.getLastD, List.headD]
  have hctr : points_calc_center_weighted sqrt_test [[(1 : ℚ)], [2], [3]] = [2] := by
    norm_num [points_calc_center_weighted, len_vnvn, len_squared_vnvn, sqrt_test,
      madd_vn_vnvn_fl, List.range_succ, List.getD, List.headD]
  have hcub : cubic_from_points sqrt_test [[(1 : ℚ)], [2], [3]] [0, 1/2, 1] [-1] [-1] =
      ⟨[1], [1], [3], [3], 2⟩ := by
    norm_num [cubic_from_points, hal, hctr, msub_vn_vnvn_fl, madd_vn_vnvn_fl,
      len_squared_vnvn, len_vnvn, sqrt_test, max_def, List.getD, List.getLastD, List.headD]
  have herr : cubic_calc_error ⟨[(1 : ℚ)], [1], [3], [3], 2⟩ [[(1 : ℚ)], [2], [3]]
      [0, 1/2, 1] = (0, 1) := by
    norm_num [cubic_calc_error, cubic_calc_error_step, cubic_evaluate, len_squared_vnvn,
      List.range', List.getD]
  have hu : points_calc_coord_length [0, 1, 1] 3 = [0, 1/2, 1] := by
    norm_num [points_calc_coord_length, List.scanl, List.getLastD]
  constructor
  · norm_num [curve_fit_cubic_to_points_db, driver_loop, run_fit, fit_cubic_to_points,
      fitFuel, points_calc_coord_length_cache, normalize_vn_vnvn, len_vnvn,
      len_squared_vnvn, len_squared_vn, sqrt_test, List.getD, List.getLastD, List.headD,
      hu, hcub, herr, hal, hctr]
  · decide

/-- Witness for C3 (amended) at a concrete two-point input with corners
[0, 1]. -/
theorem claim_C3_witness :
    ∃ arr,
      (curve_fit_cubic_to_points_db sqrt_test 0 [[0], [1]] 1 (some [0, 1])
          false true).corner_index = some arr ∧
      arr.length = ([0, 1] : List ℕ).length ∧
      arr.getD 0 0 = ([0, 1] : List ℕ).headD 0 ∧
      ∀ j, 1 ≤ j → j < ([0, 1] : List ℕ).length →
        arr.getD j 0 = ((((([0, 1] : List ℕ)).zip (([0, 1] : List ℕ)).tail).take j).flatMap
          (fun pr => run_fit sqrt_test 0 [[0], [1]] 1 pr.1 pr.2)).length :=
  claim_C3_amended sqrt_test 0 [[0], [1]] 1 [0, 1] false (by decide)

end CurveFit
